import Mathlib

/-!
Verification of the Moadata_Wanted job database engine
(`src/utils/jobdatabase/engine.py`) against its specification.

The durable JSON document `{"jobs": [...]}` is modelled as a `Storage`
holding a list of `Job` records.  File I/O fallibility is modelled by
Boolean oracles (`readOk`, `writeOk`): when an oracle is `false` the
corresponding file operation raises, which the embedding represents as
`Except.error` propagating out of the function, while a Python value
returned normally is `Except.ok`.  Each operation additionally produces a
trace of events (lock acquire/release, file read/write) so that locking
discipline can be stated.  In-place mutation of the caller's `job` dict
(`job['job_id'] = new_job_id`) is modelled by returning the caller's
binding explicitly (`arg` field of `SaveOut`).
-/

namespace Moadata

/-- A job record: `job_name`, the adjacency mapping `job_list`, the
per-task `property` bags (each bag an association list of field name to
string value), and the optional `job_id` (absent on submission). -/
structure Job where
  job_name : String
  job_list : List (String × List String)
  property : List (String × List (String × String))
  job_id : Option Int
deriving Repr, DecidableEq

/-- The parsed durable document: the `jobs` array of `Job.json`. -/
structure Storage where
  jobs : List Job
deriving Repr, DecidableEq

/-- Events observable on the shared resources: mutex acquire/release and
file read/write. -/
inductive Ev
  | acq
  | rel
  | rd
  | wr
deriving Repr, DecidableEq

/-- Errors: the validator-chain failure reasons, the two I/O failures,
the `KeyError` raised when a stored last element lacks `job_id`, and the
`ValueError` raised by `get_item` for a missing id. -/
inductive Err
  | keyMismatch
  | notConnected
  | cyclic
  | dupEdge
  | badSchema
  | ioRead
  | ioWrite
  | keyErr
  | notFound (id : Int)
deriving Repr, DecidableEq

/-! ### Validator chain (spec-modelled)

`libs/validator.py`, `utils/validator_chains.py` and the GraphAnalyzer
are not part of the provided sources; the chain below is modelled from
the specification (sections 3, 4.1-4.3): key-set equality, single weak
component, acyclicity, no duplicate edge, per-task schema, evaluated in
that order with short-circuit on the first failure. -/

/-- Keys of an association list. -/
def keysOf (l : List (String × α)) : List String := l.map (·.1)

/-- Two key lists denote the same set. -/
def sameKeySet (a b : List String) : Bool :=
  a.all (fun k => b.contains k) && b.all (fun k => a.contains k)

/-- Modelled from the spec: all task ids mentioned by the adjacency
structure (source keys and edge targets). -/
def nodesOf (adj : List (String × List String)) : List String :=
  (keysOf adj ++ adj.flatMap (·.2)).dedup

/-- Outgoing targets of a node in the adjacency mapping. -/
def targetsOf (adj : List (String × List String)) (k : String) : List String :=
  (adj.lookup k).getD []

/-- Neighbours of `k` when every edge is treated as undirected. -/
def undirectedNbrs (adj : List (String × List String)) (k : String) : List String :=
  targetsOf adj k ++ (adj.filter (fun p => p.2.contains k)).map (·.1)

/-- One saturation step of undirected reachability. -/
def reachStep (adj : List (String × List String)) (seen : List String) : List String :=
  (seen ++ seen.flatMap (undirectedNbrs adj)).dedup

/-- Iterate a step function a fixed number of times. -/
def iterApp (f : List String → List String) : Nat → List String → List String
  | 0, s => s
  | n + 1, s => iterApp f n (f s)

/-- Modelled from the spec: `is_single_component` of the GraphAnalyzer —
every task id is reachable from an arbitrary start node along undirected
edges; the empty graph is trivially a single component. -/
def is_single_component (adj : List (String × List String)) : Bool :=
  match nodesOf adj with
  | [] => true
  | n :: rest =>
    let r := iterApp (reachStep adj) (rest.length + 1) [n]
    (n :: rest).all (fun k => r.contains k)

/-- One pruning step of Kahn-style cycle detection: keep exactly the
nodes that still have an outgoing edge into the remaining set. -/
def pruneStep (adj : List (String × List String)) (rem : List String) : List String :=
  rem.filter (fun k => (targetsOf adj k).any (fun t => rem.contains t))

/-- Modelled from the spec: `has_cycle` of the GraphAnalyzer — directed
cycle detection (self-loops count); a graph is cyclic iff repeatedly
discarding edge-less nodes never empties it. -/
def has_cycle (adj : List (String × List String)) : Bool :=
  let ns := nodesOf adj
  !(iterApp (pruneStep adj) ns.length ns).isEmpty

/-- Does a list of task ids contain a repeated element? -/
def hasDupList : List String → Bool
  | [] => false
  | x :: xs => xs.contains x || hasDupList xs

/-- Modelled from the spec: `has_duplicate_edge` of the GraphAnalyzer —
some source node lists the same destination twice. -/
def has_duplicate_edge (adj : List (String × List String)) : Bool :=
  adj.any (fun p => hasDupList p.2)

/-- The fixed table of required property fields per task kind. -/
def requiredField : String → Option String
  | "read" => some "filename"
  | "write" => some "filename"
  | "drop" => some "column_name"
  | _ => none

/-- Modelled from the spec: the TaskSchemaValidator check for a single
property bag — the bag must name a recognized `task_name` and contain
that kind's required field. -/
def taskOk (bag : List (String × String)) : Bool :=
  match bag.lookup "task_name" with
  | none => false
  | some tn =>
    match requiredField tn with
    | none => false
    | some f => (bag.lookup f).isSome

/-- Every task's property bag passes the schema check. -/
def propertiesOk (pr : List (String × List (String × String))) : Bool :=
  pr.all (fun p => taskOk p.2)

/-- Modelled from the spec: `get_job_validator_chain` — the ordered,
short-circuiting validator chain returning `(valid, reason)`. -/
def validatorChain (j : Job) : Bool × Option Err :=
  if !sameKeySet (keysOf j.job_list) (keysOf j.property) then
    (false, some .keyMismatch)
  else if !is_single_component j.job_list then
    (false, some .notConnected)
  else if has_cycle j.job_list then
    (false, some .cyclic)
  else if has_duplicate_edge j.job_list then
    (false, some .dupEdge)
  else if !propertiesOk j.property then
    (false, some .badSchema)
  else
    (true, none)

/-! ### The engine (`JobDatabaseEngine`) -/

/-- Modelled from the spec: the `lock_while_using_file` decorator of
`libs/resource_access.py` — it acquires the engine mutex, runs the body,
and releases the mutex on every exit path; an exception raised by the
body still propagates after the release. -/
def lock_while_using_file (body : Storage → Storage × List Ev × β) (st : Storage) :
    Storage × List Ev × β :=
  let r := body st
  (r.1, Ev.acq :: (r.2.1 ++ [Ev.rel]), r.2.2)

/-- The Python access `storage['jobs'][-1]`. -/
def lastJob? : List Job → Option Job
  | [] => none
  | [j] => some j
  | _ :: j :: rest => lastJob? (j :: rest)

/-- The id computation of `__save`: `1` if the collection is empty, else
the last element's `job_id + 1`; a last element without `job_id` raises
(`KeyError`, uncaught). -/
def nextIdOf (js : List Job) : Except Err Int :=
  match lastJob? js with
  | none => .ok 1
  | some j =>
    match j.job_id with
    | none => .error .keyErr
    | some m => .ok (m + 1)

/-- Body of `JobDatabaseEngine.save.__save`: read the document, compute
the new id, mutate the caller's job dict, append, write the document
back; returns (state, trace, caller's job binding, result). -/
def saveBody (job : Job) (readOk writeOk : Bool) (st : Storage) :
    Storage × List Ev × (Job × Except Err Int) :=
  if !readOk then
    (st, [Ev.rd], (job, .error .ioRead))
  else
    match nextIdOf st.jobs with
    | .error e => (st, [Ev.rd], (job, .error e))
    | .ok n =>
      let job1 := { job with job_id := some n }
      if !writeOk then
        (st, [Ev.rd, Ev.wr], (job1, .error .ioWrite))
      else
        ({ jobs := st.jobs ++ [job1] }, [Ev.rd, Ev.wr], (job1, .ok n))

/-- Result of a `save` call: the returned triple (or a propagated
exception), the durable state, the event trace, and the caller's `job`
binding after the call. -/
structure SaveOut where
  res : Except Err (Option Int × Bool × Option Err)
  st : Storage
  tr : List Ev
  arg : Job
deriving Repr

/-- `JobDatabaseEngine.save`: run the validator chain; on failure return
`(None, False, err)` without touching the file; otherwise run the locked
`__save` and return `(new_job_id, True, None)`.  A storage exception
inside `__save` is not caught and propagates (`res = .error`). -/
def save (job : Job) (readOk writeOk : Bool) (st : Storage) : SaveOut :=
  let v := validatorChain job
  if !v.1 || v.2.isSome then
    { res := .ok (none, false, v.2), st := st, tr := [], arg := job }
  else
    let out := lock_while_using_file (saveBody job readOk writeOk) st
    match out.2.2.2 with
    | .ok n => { res := .ok (some n, true, none), st := out.1, tr := out.2.1, arg := out.2.2.1 }
    | .error e => { res := .error e, st := out.1, tr := out.2.1, arg := out.2.2.1 }

/-- Indexing `storage[idx]` into the jobs list. -/
def nthJob? : List Job → Nat → Option Job
  | [], _ => none
  | j :: _, 0 => some j
  | _ :: rest, n + 1 => nthJob? rest n

/-- Modelled from the spec: `search_job_by_job_id` of
`utils/jobdatabase/default_algorithm.py` — linear search for the first
record whose `job_id` matches, returning `(is_exists, index)`. -/
def searchAux (js : List Job) (jid : Int) (i : Nat) : Bool × Nat :=
  match js with
  | [] => (false, 0)
  | j :: rest =>
    if j.job_id == some jid then (true, i) else searchAux rest jid (i + 1)

/-- Entry point of the linear search. -/
def search_job_by_job_id (js : List Job) (jid : Int) : Bool × Nat :=
  searchAux js jid 0

/-- Body of `JobDatabaseEngine.get_item.__get_item`: read the document
and search; `(False, None)` when absent, `(True, storage[idx])` when
present. -/
def getItemBody (jid : Int) (readOk : Bool) (st : Storage) :
    Storage × List Ev × Except Err (Bool × Option Job) :=
  if !readOk then
    (st, [Ev.rd], .error .ioRead)
  else
    let s := search_job_by_job_id st.jobs jid
    if !s.1 then (st, [Ev.rd], .ok (false, none))
    else (st, [Ev.rd], .ok (true, nthJob? st.jobs s.2))

/-- Result of a `get_item` call: the returned triple (exceptions are
caught inside `get_item`, so the result is always a plain triple), the
state and the trace. -/
structure GetOut where
  res : Option Job × Bool × Option Err
  st : Storage
  tr : List Ev
deriving Repr

/-- `JobDatabaseEngine.get_item`: run the locked `__get_item` inside
`try/except`; a raised storage error becomes `(None, False, e)`, a miss
becomes `(None, False, ValueError)`, a hit `(job, True, None)`. -/
def get_item (jid : Int) (readOk : Bool) (st : Storage) : GetOut :=
  let out := lock_while_using_file (getItemBody jid readOk) st
  match out.2.2 with
  | .error e => { res := (none, false, some e), st := out.1, tr := out.2.1 }
  | .ok (false, _) => { res := (none, false, some (.notFound jid)), st := out.1, tr := out.2.1 }
  | .ok (true, oj) => { res := (oj, true, none), st := out.1, tr := out.2.1 }

/-- `JobDatabaseEngine.update`: the locked body is `pass`; the call
returns Python `None`, modelled as `none`. -/
def update (_jid : Int) (_upd : List (String × String)) (st : Storage) :
    Storage × List Ev × Option Int :=
  lock_while_using_file (fun s => (s, ([] : List Ev), (none : Option Int))) st

/-- `JobDatabaseEngine.remove`: the locked body is `pass`; the call
returns Python `None`, modelled as `none`. -/
def remove (_jid : Int) (st : Storage) : Storage × List Ev × Option Int :=
  lock_while_using_file (fun s => (s, ([] : List Ev), (none : Option Int))) st

/-- `JobDatabaseEngine.reset`: overwrite the document with
`{'jobs': []}`.  Note: no lock decorator and no `try/except` in the
source — the write happens outside the mutex and a write failure
propagates. -/
def reset (writeOk : Bool) (st : Storage) : Storage × List Ev × Except Err Unit :=
  if writeOk then ({ jobs := [] }, [Ev.wr], .ok ())
  else (st, [Ev.wr], .error .ioWrite)

/-! ### Singleton construction (`__new__` / `__init__`) -/

/-- The observable identity of the engine object: which allocation it
is (`instId`), and which `Lock()` / validator-chain allocations its
attributes currently hold. -/
structure EngineInst where
  instId : Nat
  mutexId : Nat
  validatorId : Nat
deriving Repr, DecidableEq

/-- The class-level state: the `jobdatabase_instance` attribute if set,
plus an allocation counter supplying fresh object identities. -/
structure ClsState where
  inst : Option EngineInst
  fresh : Nat
deriving Repr, DecidableEq

/-- `JobDatabaseEngine.__new__`: create the object only when the class
attribute `jobdatabase_instance` is unset, else return the stored one. -/
def engineNew (s : ClsState) : EngineInst × ClsState :=
  match s.inst with
  | some i => (i, s)
  | none =>
    let i : EngineInst := { instId := s.fresh, mutexId := 0, validatorId := 0 }
    (i, { inst := some i, fresh := s.fresh + 1 })

/-- `JobDatabaseEngine.__init__`: unconditionally rebind `self.mutex`
to a fresh `Lock()` and `self.validator` to a fresh chain; the mutation
is visible through the stored singleton. -/
def engineInit (i : EngineInst) (s : ClsState) : EngineInst × ClsState :=
  let i1 := { i with mutexId := s.fresh, validatorId := s.fresh + 1 }
  (i1, { inst := some i1, fresh := s.fresh + 2 })

/-- Evaluating `JobDatabaseEngine()`: Python calls `__new__` and then
always calls `__init__` on the returned instance. -/
def engineCtor (s : ClsState) : EngineInst × ClsState :=
  let r := engineNew s
  engineInit r.1 r.2

/-! ### Locking discipline over traces -/

/-- Every file access in the trace happens while the mutex is held, and
acquires/releases are balanced. -/
def lockedAux : List Ev → Nat → Bool
  | [], d => d == 0
  | Ev.acq :: t, d => lockedAux t (d + 1)
  | Ev.rel :: t, d => d != 0 && lockedAux t (d - 1)
  | Ev.rd :: t, d => d != 0 && lockedAux t d
  | Ev.wr :: t, d => d != 0 && lockedAux t d

/-- A trace respects the locking discipline. -/
def lockedTrace (tr : List Ev) : Bool := lockedAux tr 0

/-! ### Derived definitions used by the statements -/

/-- The id returned by a `save` call, when one was returned. -/
def assignedId (o : SaveOut) : Option Int :=
  match o.res with
  | .ok t => t.1
  | .error _ => none

/-- Run `save` (with healthy storage) over a list of submissions in
order, collecting the returned ids. -/
def saveAll : List Job → Storage → List (Option Int) × Storage
  | [], st => ([], st)
  | j :: rest, st =>
    let out := save j true true st
    let r := saveAll rest out.st
    (assignedId out :: r.1, r.2)

/-- The consecutive identifiers `[a, a+1, ..., a+n-1]`. -/
def idSeq (a : Int) : Nat → List Int
  | 0 => []
  | n + 1 => a :: idSeq (a + 1) n

/-- The job of `test_success` (`src/test/test_create.py`): adjacency
`{R1:[R2,W1], R2:[W1,W2], W1:[W2], W2:[]}` with correct read/write
properties. -/
def validJob : Job :=
  { job_name := "Job1"
    job_list := [("R1", ["R2", "W1"]), ("R2", ["W1", "W2"]), ("W1", ["W2"]), ("W2", [])]
    property :=
      [("R1", [("task_name", "read"), ("filename", "init.csv")]),
       ("R2", [("task_name", "read"), ("filename", "1.csv")]),
       ("W1", [("task_name", "write"), ("filename", "a.csv")]),
       ("W2", [("task_name", "write"), ("filename", "b.csv")])]
    job_id := none }

/-- A job with a duplicated edge `R1 -> W1` listed twice, which the
chain rejects. -/
def dupEdgeJob : Job :=
  { job_name := "Dup"
    job_list := [("R1", ["W1", "W1"]), ("W1", [])]
    property :=
      [("R1", [("task_name", "read"), ("filename", "init.csv")]),
       ("W1", [("task_name", "write"), ("filename", "a.csv")])]
    job_id := none }

/-- `validJob` as persisted with id 1. -/
def savedValidJob : Job := { validJob with job_id := some 1 }

/-! ### Helper lemmas -/

theorem chain_shape (j : Job) :
    validatorChain j = (true, none) ∨ ∃ e, validatorChain j = (false, some e) := by
  unfold validatorChain
  split
  · exact Or.inr ⟨_, rfl⟩
  · split
    · exact Or.inr ⟨_, rfl⟩
    · split
      · exact Or.inr ⟨_, rfl⟩
      · split
        · exact Or.inr ⟨_, rfl⟩
        · split
          · exact Or.inr ⟨_, rfl⟩
          · exact Or.inl rfl

theorem chain_true_eq (j : Job) (hv : (validatorChain j).1 = true) :
    validatorChain j = (true, none) := by
  rcases chain_shape j with h | ⟨e, h⟩
  · exact h
  · rw [h] at hv
    simp at hv

theorem chain_false_some (j : Job) (hv : (validatorChain j).1 = false) :
    ∃ e, validatorChain j = (false, some e) := by
  rcases chain_shape j with h | h
  · rw [h] at hv
    simp at hv
  · exact h

theorem save_invalid (j : Job) (r w : Bool) (st : Storage) (e : Err)
    (h : validatorChain j = (false, some e)) :
    save j r w st = { res := .ok (none, false, some e), st := st, tr := [], arg := j } := by
  simp [save, h]

theorem save_valid_step (j : Job) (st : Storage) (n : Int)
    (hv : (validatorChain j).1 = true) (hn : nextIdOf st.jobs = .ok n) :
    save j true true st =
      { res := .ok (some n, true, none)
        st := { jobs := st.jobs ++ [{ j with job_id := some n }] }
        tr := [Ev.acq, Ev.rd, Ev.wr, Ev.rel]
        arg := { j with job_id := some n } } := by
  have hch : validatorChain j = (true, none) := chain_true_eq j hv
  simp [save, hch, lock_while_using_file, saveBody, hn]

theorem lastJob?_append (l : List Job) (j : Job) : lastJob? (l ++ [j]) = some j := by
  induction l with
  | nil => rfl
  | cons a t ih =>
    cases t with
    | nil => rfl
    | cons b t2 => exact ih

theorem lastJob?_of_map_append :
    ∀ (js : List Job) (l : List (Option Int)) (x : Option Int),
      js.map Job.job_id = l ++ [x] → ∃ j, lastJob? js = some j ∧ j.job_id = x := by
  intro js
  induction js with
  | nil =>
    intro l x h
    simp at h
  | cons a t ih =>
    intro l x h
    cases t with
    | nil =>
      have hx : x = a.job_id := by
        cases l with
        | nil =>
          simp at h
          exact h.symm
        | cons c cs =>
          exfalso
          have hl := congrArg List.length h
          simp at hl
      exact ⟨a, rfl, hx.symm⟩
    | cons b t2 =>
      cases l with
      | nil =>
        exfalso
        have hl := congrArg List.length h
        simp at hl
      | cons c cs =>
        have h2 : (b :: t2).map Job.job_id = cs ++ [x] := by
          injection h with h1 h2
        obtain ⟨j, hj1, hj2⟩ := ih cs x h2
        exact ⟨j, hj1, hj2⟩

theorem idSeq_append (n : Nat) : ∀ a : Int, idSeq a (n + 1) = idSeq a n ++ [a + n] := by
  induction n with
  | zero =>
    intro a
    simp [idSeq]
  | succ m ih =>
    intro a
    have h1 : idSeq a (m + 1 + 1) = a :: idSeq (a + 1) (m + 1) := rfl
    rw [h1, ih (a + 1)]
    have h2 : idSeq a (m + 1) = a :: idSeq (a + 1) m := rfl
    rw [h2]
    simp only [List.cons_append, List.append_assoc]
    have h3 : a + 1 + (m : Int) = a + ((m : Nat) + 1 : Nat) := by
      push_cast
      ring
    rw [h3]

theorem idSeq_mem : ∀ (n : Nat) (a x : Int), x ∈ idSeq a n → a ≤ x ∧ x < a + n := by
  intro n
  induction n with
  | zero =>
    intro a x h
    simp [idSeq] at h
  | succ m ih =>
    intro a x h
    rcases List.mem_cons.mp h with h1 | h1
    · subst h1
      constructor
      · exact le_refl x
      · push_cast
        omega
    · obtain ⟨hle, hlt⟩ := ih (a + 1) x h1
      constructor
      · omega
      · push_cast
        omega

theorem nextIdOf_of_idSeq (js : List Job) (n : Nat)
    (h : js.map Job.job_id = (idSeq 1 n).map some) :
    nextIdOf js = .ok ((n : Int) + 1) := by
  cases n with
  | zero =>
    have hnil : js = [] := by
      simpa [idSeq] using h
    subst hnil
    simp [nextIdOf, lastJob?]
  | succ m =>
    rw [idSeq_append] at h
    obtain ⟨j, hj1, hj2⟩ := lastJob?_of_map_append js ((idSeq 1 m).map some) (some (1 + m)) (by simpa using h)
    have : nextIdOf js = .ok ((1 : Int) + m + 1) := by
      simp [nextIdOf, hj1, hj2]
    rw [this]
    congr 1
    push_cast
    ring

theorem saveAll_seq (js : List Job) :
    ∀ (st : Storage) (n : Nat),
      (∀ j ∈ js, (validatorChain j).1 = true) →
      st.jobs.map Job.job_id = (idSeq 1 n).map some →
      (saveAll js st).1 = (idSeq ((n : Int) + 1) js.length).map some ∧
      (saveAll js st).2.jobs.map Job.job_id = (idSeq 1 (n + js.length)).map some := by
  induction js with
  | nil =>
    intro st n hv hst
    constructor
    · simp [saveAll, idSeq]
    · simpa [saveAll] using hst
  | cons j rest ih =>
    intro st n hv hst
    have hvj : (validatorChain j).1 = true := hv j (by simp)
    have hn := nextIdOf_of_idSeq st.jobs n hst
    have hsv := save_valid_step j st ((n : Int) + 1) hvj hn
    have hst1 :
        ({ jobs := st.jobs ++ [{ j with job_id := some ((n : Int) + 1) }] } : Storage).jobs.map
          Job.job_id = (idSeq 1 (n + 1)).map some := by
      rw [idSeq_append]
      simp [hst]
      ring
    obtain ⟨ih1, ih2⟩ := ih { jobs := st.jobs ++ [{ j with job_id := some ((n : Int) + 1) }] }
      (n + 1) (fun j2 hj2 => hv j2 (by simp [hj2])) hst1
    have hc1 : (((n + 1 : Nat) : Int)) + 1 = ((n : Int) + 1) + 1 := by omega
    rw [hc1] at ih1
    have hc2 : n + 1 + rest.length = n + (rest.length + 1) := by omega
    rw [hc2] at ih2
    constructor
    · show assignedId (save j true true st) ::
        (saveAll rest (save j true true st).st).1 = _
      rw [hsv]
      show some ((n : Int) + 1) ::
        (saveAll rest { jobs := st.jobs ++ [{ j with job_id := some ((n : Int) + 1) }] }).1 = _
      rw [ih1, List.length_cons, idSeq]
      simp
    · show (saveAll rest (save j true true st).st).2.jobs.map Job.job_id = _
      rw [hsv]
      show (saveAll rest
          { jobs := st.jobs ++ [{ j with job_id := some ((n : Int) + 1) }] }).2.jobs.map
          Job.job_id = _
      rw [ih2, List.length_cons]

theorem searchAux_found :
    ∀ (js : List Job) (jid : Int) (i : Nat),
      some jid ∈ js.map Job.job_id →
      ∃ idx j, searchAux js jid i = (true, idx) ∧ i ≤ idx ∧
        nthJob? js (idx - i) = some j ∧ j.job_id = some jid := by
  intro js jid
  induction js with
  | nil =>
    intro i h
    simp at h
  | cons a t ih =>
    intro i h
    by_cases ha : a.job_id = some jid
    · refine ⟨i, a, ?_, le_refl i, ?_, ha⟩
      · simp [searchAux, ha]
      · simp [nthJob?]
    · have h2 : some jid ∈ t.map Job.job_id := by
        simp only [List.map_cons] at h
        rcases List.mem_cons.mp h with h1 | h1
        · exact absurd h1.symm ha
        · exact h1
      obtain ⟨idx, j, hs, hle, hnth, hj⟩ := ih (i + 1) h2
      refine ⟨idx, j, ?_, by omega, ?_, hj⟩
      · simp only [searchAux, beq_iff_eq]
        rw [if_neg ha]
        exact hs
      · have hsub : idx - i = (idx - (i + 1)) + 1 := by omega
        rw [hsub]
        exact hnth

theorem searchAux_none :
    ∀ (js : List Job) (jid : Int) (i : Nat),
      some jid ∉ js.map Job.job_id → searchAux js jid i = (false, 0) := by
  intro js jid
  induction js with
  | nil =>
    intro i _
    rfl
  | cons a t ih =>
    intro i h
    have ha : ¬(a.job_id = some jid) := fun hc => h (by simp [hc])
    have h2 : some jid ∉ t.map Job.job_id := fun hc => h (by simp [hc])
    simp only [searchAux, beq_iff_eq]
    rw [if_neg ha]
    exact ih (i + 1) h2

theorem nthJob?_mem : ∀ (js : List Job) (k : Nat) (j : Job), nthJob? js k = some j → j ∈ js := by
  intro js
  induction js with
  | nil =>
    intro k j h
    simp [nthJob?] at h
  | cons a t ih =>
    intro k j h
    cases k with
    | zero =>
      have : a = j := by
        simpa [nthJob?] using h
      rw [← this]
      exact List.mem_cons_self a t
    | succ m => exact List.mem_cons_of_mem a (ih m j h)

theorem save_tr_shape (j : Job) (r w : Bool) (st : Storage) :
    (save j r w st).tr = [] ∨ (save j r w st).tr = [Ev.acq, Ev.rd, Ev.rel] ∨
      (save j r w st).tr = [Ev.acq, Ev.rd, Ev.wr, Ev.rel] := by
  rcases chain_shape j with hch | ⟨e, hch⟩
  · cases r with
    | false =>
      right; left
      simp [save, hch, lock_while_using_file, saveBody]
    | true =>
      cases hn : nextIdOf st.jobs with
      | error e2 =>
        right; left
        simp [save, hch, lock_while_using_file, saveBody, hn]
      | ok m =>
        cases w with
        | false =>
          right; right
          simp [save, hch, lock_while_using_file, saveBody, hn]
        | true =>
          right; right
          simp [save, hch, lock_while_using_file, saveBody, hn]
  · left
    simp [save, hch]

theorem get_item_tr (jid : Int) (r : Bool) (st : Storage) :
    (get_item jid r st).tr = [Ev.acq, Ev.rd, Ev.rel] := by
  cases r with
  | false => rfl
  | true =>
    rcases hs : search_job_by_job_id st.jobs jid with ⟨b, idx⟩
    cases b with
    | false => simp [get_item, lock_while_using_file, getItemBody, hs]
    | true => simp [get_item, lock_while_using_file, getItemBody, hs]

theorem save_res_cases (j : Job) (r w : Bool) (st : Storage) :
    (∃ e, (save j r w st).res = .error e) ∨
    (∃ n : Int, (save j r w st).res = .ok (some n, true, none)) ∨
    (∃ e, (save j r w st).res = .ok (none, false, some e)) := by
  rcases chain_shape j with hch | ⟨e, hch⟩
  · cases r with
    | false =>
      left
      exact ⟨Err.ioRead, by simp [save, hch, lock_while_using_file, saveBody]⟩
    | true =>
      cases hn : nextIdOf st.jobs with
      | error e2 =>
        left
        exact ⟨e2, by simp [save, hch, lock_while_using_file, saveBody, hn]⟩
      | ok m =>
        cases w with
        | false =>
          left
          exact ⟨Err.ioWrite, by simp [save, hch, lock_while_using_file, saveBody, hn]⟩
        | true =>
          right; left
          exact ⟨m, by simp [save, hch, lock_while_using_file, saveBody, hn]⟩
  · right; right
    exact ⟨e, by simp [save, hch]⟩

/-! ### Claims -/

/-- C1: `save` assigns the new job's identifier as the last element's
`job_id` plus 1, or 1 when the collection is empty; over any sequence of
successful saves starting from an empty collection the assigned
identifiers are exactly `1, 2, ..., N` in order, the persisted ids are
`1..N`, and the collection's last element always holds the maximum id. -/
theorem C1_id_assignment_and_sequence :
    (∀ (j : Job) (st : Storage), (validatorChain j).1 = true →
       (st.jobs = [] → (save j true true st).res = .ok (some 1, true, none)) ∧
       (∀ (l : Job) (m : Int), lastJob? st.jobs = some l → l.job_id = some m →
          (save j true true st).res = .ok (some (m + 1), true, none))) ∧
    (∀ js : List Job, (∀ j ∈ js, (validatorChain j).1 = true) →
       (saveAll js { jobs := [] }).1 = (idSeq 1 js.length).map some ∧
       (saveAll js { jobs := [] }).2.jobs.map Job.job_id = (idSeq 1 js.length).map some ∧
       (∀ l, lastJob? (saveAll js { jobs := [] }).2.jobs = some l →
          ∀ j2 ∈ (saveAll js { jobs := [] }).2.jobs, ∀ m : Int, j2.job_id = some m →
            ∃ M : Int, l.job_id = some M ∧ m ≤ M)) := by
  constructor
  · intro j st hv
    constructor
    · intro hemp
      have hn : nextIdOf st.jobs = .ok 1 := by
        rw [hemp]
        rfl
      rw [save_valid_step j st 1 hv hn]
    · intro l m hl hm
      have hn : nextIdOf st.jobs = .ok (m + 1) := by
        simp [nextIdOf, hl, hm]
      rw [save_valid_step j st (m + 1) hv hn]
  · intro js hv
    have h := saveAll_seq js { jobs := [] } 0 hv (by simp [idSeq])
    have h1 : (saveAll js { jobs := [] }).1 = (idSeq 1 js.length).map some := by
      simpa using h.1
    have h2 : (saveAll js { jobs := [] }).2.jobs.map Job.job_id
        = (idSeq 1 js.length).map some := by
      simpa using h.2
    refine ⟨h1, h2, ?_⟩
    intro l hl j2 hj2 m hm
    cases hN : js.length with
    | zero =>
      have hjobs : (saveAll js { jobs := [] }).2.jobs = [] := by
        have h0 : (saveAll js { jobs := [] }).2.jobs.map Job.job_id = [] := by
          rw [h2, hN]
          rfl
        exact List.map_eq_nil_iff.mp h0
      rw [hjobs] at hl
      simp [lastJob?] at hl
    | succ k =>
      have h2k : (saveAll js { jobs := [] }).2.jobs.map Job.job_id
          = (idSeq 1 (k + 1)).map some := by
        rw [← hN]
        exact h2
      have h2' : (saveAll js { jobs := [] }).2.jobs.map Job.job_id
          = ((idSeq 1 k).map some) ++ [some (1 + (k : Int))] := by
        rw [h2k, idSeq_append]
        simp
      obtain ⟨j3, hj3, hid3⟩ := lastJob?_of_map_append _ _ _ h2'
      have hlj : l = j3 := by
        rw [hl] at hj3
        exact Option.some.inj hj3
      have hmm : (some m : Option Int) ∈ (idSeq 1 (k + 1)).map some := by
        have h4 := List.mem_map_of_mem Job.job_id hj2
        rw [h2k] at h4
        rw [hm] at h4
        exact h4
      have hmem2 : m ∈ idSeq 1 (k + 1) := by
        rcases List.mem_map.mp hmm with ⟨x, hx1, hx2⟩
        rwa [Option.some.inj hx2] at hx1
      have hb := idSeq_mem (k + 1) 1 m hmem2
      refine ⟨1 + (k : Int), by rw [hlj]; exact hid3, ?_⟩
      obtain ⟨hb1, hb2⟩ := hb
      push_cast at hb2
      omega

/-- Witness for C1: saving the valid job twice from the empty collection
assigns ids 1 then 2, and the persisted ids are `[1, 2]`. -/
theorem C1_witness :
    (saveAll [validJob, validJob] { jobs := [] }).1 = [some 1, some 2] ∧
    (saveAll [validJob, validJob] { jobs := [] }).2.jobs.map Job.job_id
      = [some 1, some 2] := by
  have hv : ∀ j ∈ ([validJob, validJob] : List Job), (validatorChain j).1 = true := by
    intro j hj
    simp only [List.mem_cons, List.not_mem_nil, or_false] at hj
    rcases hj with rfl | rfl <;> decide
  have h := C1_id_assignment_and_sequence.2 [validJob, validJob] hv
  constructor
  · rw [h.1]
    decide
  · rw [h.2.1]
    decide

/-- C2: a job failing the validator chain makes `save` return the triple
`(None, False, err)` carrying the chain's error, with no read or write
of the durable collection (empty access trace) and the persisted
collection unchanged. -/
theorem C2_invalid_save_is_pure (j : Job) (r w : Bool) (st : Storage)
    (h : (validatorChain j).1 = false) :
    (save j r w st).res = .ok (none, false, (validatorChain j).2) ∧
    (validatorChain j).2.isSome = true ∧
    (save j r w st).st = st ∧
    (save j r w st).tr = [] := by
  obtain ⟨e, he⟩ := chain_false_some j h
  rw [save_invalid j r w st e he, he]
  exact ⟨rfl, rfl, rfl, rfl⟩

/-- Witness for C2 at the duplicate-edge job. -/
theorem C2_witness :
    (validatorChain dupEdgeJob).1 = false ∧
    (save dupEdgeJob true true { jobs := [] }).res =
      .ok (none, false, (validatorChain dupEdgeJob).2) ∧
    (validatorChain dupEdgeJob).2.isSome = true ∧
    (save dupEdgeJob true true { jobs := [] }).st = { jobs := [] } ∧
    (save dupEdgeJob true true { jobs := [] }).tr = [] := by
  have h := C2_invalid_save_is_pure dupEdgeJob true true { jobs := [] } (by decide)
  exact ⟨by decide, h.1, h.2.1, h.2.2.1, h.2.2.2⟩

/-- C3 counterexample: a storage read failure inside `save`'s locked
critical section is not converted into a returned error result — the
exception propagates out of `save` (`Except.error`), refuting the claim
that every operation catches storage I/O failures. -/
theorem C3_counterexample :
    (save validJob false true { jobs := [] }).res = Except.error Err.ioRead := rfl

/-- C3 (amended): only `get_item` catches storage I/O failures raised
inside the locked critical section and converts them into a returned
error result; `save` and `reset` let the failure propagate as an
exception; `update` and `remove` perform no storage access. -/
theorem C3_catch_boundary_amended :
    (∀ (jid : Int) (st : Storage),
       (get_item jid false st).res = (none, false, some Err.ioRead)) ∧
    (∀ (j : Job) (st : Storage), (validatorChain j).1 = true →
       (save j false true st).res = Except.error Err.ioRead) ∧
    (∀ st : Storage, (reset false st).2.2 = Except.error Err.ioWrite) ∧
    (∀ (jid : Int) (upd : List (String × String)) (st : Storage),
       (update jid upd st).1 = st ∧ (remove jid st).1 = st) := by
  refine ⟨?_, ?_, ?_, ?_⟩
  · intro jid st
    rfl
  · intro j st hv
    have hch := chain_true_eq j hv
    simp [save, hch, lock_while_using_file, saveBody]
  · intro st
    rfl
  · intro jid upd st
    exact ⟨rfl, rfl⟩

/-- Witness for C3 (amended) at the valid job. -/
theorem C3_witness :
    (validatorChain validJob).1 = true ∧
    (save validJob false true { jobs := [] }).res = Except.error Err.ioRead :=
  ⟨by decide, C3_catch_boundary_amended.2.1 validJob { jobs := [] } (by decide)⟩

/-- C4: `save`, `get_item`, `update` and `remove` perform all their file
accesses under the mutex with balanced acquire/release, but `reset`
writes the durable document with no lock acquisition at all — its trace
is a bare write, violating the locking discipline. -/
theorem C4_lock_discipline_reset_gap :
    (∀ (j : Job) (r w : Bool) (st : Storage), lockedTrace (save j r w st).tr = true) ∧
    (∀ (jid : Int) (r : Bool) (st : Storage), lockedTrace (get_item jid r st).tr = true) ∧
    (∀ (jid : Int) (upd : List (String × String)) (st : Storage),
       lockedTrace (update jid upd st).2.1 = true) ∧
    (∀ (jid : Int) (st : Storage), lockedTrace (remove jid st).2.1 = true) ∧
    (∀ (w : Bool) (st : Storage),
       (reset w st).2.1 = [Ev.wr] ∧ lockedTrace (reset w st).2.1 = false) := by
  refine ⟨?_, ?_, ?_, ?_, ?_⟩
  · intro j r w st
    rcases save_tr_shape j r w st with h | h | h <;> rw [h] <;> rfl
  · intro jid r st
    rw [get_item_tr]
    rfl
  · intro jid upd st
    rfl
  · intro jid st
    rfl
  · intro w st
    cases w <;> exact ⟨rfl, rfl⟩

/-- C5: constructing the engine twice returns the same instance, but the
second construction reruns `__init__`, rebinding the instance's mutex
and validator to fresh allocations — the mutex is not left unchanged. -/
theorem C5_singleton_reinit :
    ((engineCtor { inst := none, fresh := 1 }).1).instId =
      ((engineCtor (engineCtor { inst := none, fresh := 1 }).2).1).instId ∧
    ((engineCtor { inst := none, fresh := 1 }).1).mutexId ≠
      ((engineCtor (engineCtor { inst := none, fresh := 1 }).2).1).mutexId ∧
    ((engineCtor { inst := none, fresh := 1 }).1).validatorId ≠
      ((engineCtor (engineCtor { inst := none, fresh := 1 }).2).1).validatorId := by
  refine ⟨rfl, by decide, by decide⟩

/-- C6: for a `job_id` present in the persisted collection, `get_item`
returns the matching record with success; for an absent `job_id` it
fails with the not-found error naming the missing id and no job. -/
theorem C6_get_by_id (st : Storage) (jid : Int) :
    (some jid ∈ st.jobs.map Job.job_id →
       ∃ j, (get_item jid true st).res = (some j, true, none) ∧
         j ∈ st.jobs ∧ j.job_id = some jid) ∧
    (some jid ∉ st.jobs.map Job.job_id →
       (get_item jid true st).res = (none, false, some (Err.notFound jid))) := by
  constructor
  · intro h
    obtain ⟨idx, j, hs, _, hnth, hj⟩ := searchAux_found st.jobs jid 0 h
    have hnth0 : nthJob? st.jobs idx = some j := by
      simpa using hnth
    refine ⟨j, ?_, nthJob?_mem st.jobs idx j hnth0, hj⟩
    simp [get_item, lock_while_using_file, getItemBody, search_job_by_job_id, hs, hnth0]
  · intro h
    have hs := searchAux_none st.jobs jid 0 h
    simp [get_item, lock_while_using_file, getItemBody, search_job_by_job_id, hs]

/-- Witness for C6: a hit on id 1 and a miss on id 2 against a
one-element collection. -/
theorem C6_witness :
    (∃ j, (get_item 1 true { jobs := [savedValidJob] }).res = (some j, true, none) ∧
       j ∈ ({ jobs := [savedValidJob] } : Storage).jobs ∧ j.job_id = some (1 : Int)) ∧
    (get_item 2 true { jobs := [savedValidJob] }).res =
      (none, false, some (Err.notFound 2)) :=
  ⟨(C6_get_by_id { jobs := [savedValidJob] } 1).1 (by decide),
   (C6_get_by_id { jobs := [savedValidJob] } 2).2 (by decide)⟩

/-- C7: `update` and `remove` only acquire and release the lock, leave
the persisted collection untouched, and return Python `None`. -/
theorem C7_update_remove_noop (jid : Int) (upd : List (String × String)) (st : Storage) :
    update jid upd st = (st, [Ev.acq, Ev.rel], none) ∧
    remove jid st = (st, [Ev.acq, Ev.rel], none) :=
  ⟨rfl, rfl⟩

/-- C8: the `test_success` job (adjacency
`{R1:[R2,W1], R2:[W1,W2], W1:[W2], W2:[]}` with correct read/write
properties) passes the whole validator chain, and saving it into the
empty collection succeeds with assigned id 1. -/
theorem C8_success_scenario :
    validatorChain validJob = (true, none) ∧
    (save validJob true true { jobs := [] }).res = Except.ok (some 1, true, none) ∧
    (save validJob true true { jobs := [] }).st = { jobs := [savedValidJob] } := by
  refine ⟨by decide, rfl, by decide⟩

/-- C9: for a job that passes validation, `save` mutates the caller's
job binding in place — after the call the argument carries the
`job_id` key bound to the assigned identifier (the in-place dict
mutation is modelled by the `arg` field of `SaveOut`). -/
theorem C9_save_mutates_caller_job (j : Job) (st : Storage) (n : Int)
    (hv : (validatorChain j).1 = true) (hn : nextIdOf st.jobs = .ok n) :
    (save j true true st).arg = { j with job_id := some n } ∧
    (save j true true st).arg.job_id = some n ∧
    (save j true true st).res = .ok (some n, true, none) := by
  rw [save_valid_step j st n hv hn]
  exact ⟨rfl, rfl, rfl⟩

/-- Witness for C9 at the valid job and the empty collection. -/
theorem C9_witness :
    (save validJob true true { jobs := [] }).arg = { validJob with job_id := some 1 } ∧
    (save validJob true true { jobs := [] }).arg.job_id = some 1 ∧
    (save validJob true true { jobs := [] }).res = .ok (some 1, true, none) :=
  C9_save_mutates_caller_job validJob { jobs := [] } 1 (by decide) rfl

/-- C10: whenever `save` returns (rather than raising), the returned
triple has exactly one of the two shapes `(some id, True, None)` or
`(None, False, some err)` — success flag, presence of the id and
absence of the error coincide. -/
theorem C10_save_result_shape (j : Job) (r w : Bool) (st : Storage)
    (t : Option Int × Bool × Option Err)
    (h : (save j r w st).res = Except.ok t) :
    (∃ n : Int, t = (some n, true, none)) ∨ (∃ e : Err, t = (none, false, some e)) := by
  rcases save_res_cases j r w st with ⟨e, he⟩ | ⟨n, hn⟩ | ⟨e, he⟩
  · rw [he] at h
    exact absurd h (by simp)
  · rw [hn] at h
    left
    exact ⟨n, (Except.ok.inj h).symm⟩
  · rw [he] at h
    right
    exact ⟨e, (Except.ok.inj h).symm⟩

/-- Witness for C10 at a successful save of the valid job. -/
theorem C10_witness :
    (∃ n : Int, ((some 1 : Option Int), true, (none : Option Err)) = (some n, true, none)) ∨
    (∃ e : Err, ((some 1 : Option Int), true, (none : Option Err)) = (none, false, some e)) :=
  C10_save_result_shape validJob true true { jobs := [] } (some 1, true, none) rfl

end Moadata
